import Mathlib

/-!
Verification development for the promptmigrate repository.

The Python source (src/promptmigrate/manager.py) is embedded shallowly:
dictionaries become ordered association lists, file contents become an
explicit `FileContent` value threaded through the functions, exceptions
become `Except`/`Option` results, and the external jinja2 template engine
is modelled on exactly the template fragment this code exercises.

The revision engine (`PromptMigration`, `prompt_revision`, `upgrade`,
`current_rev`, `_load_state`) is referenced by the package but its code is
not under src/; those definitions are modelled from the specification and
are marked `Modelled from the spec:` in their doc comments.
-/

deriving instance DecidableEq for Except

namespace Promptmigrate

/-- Ordered association list, the embedding of a Python `dict` whose
insertion order is observable (used for the prompts mapping, dynamic
values, jinja variables and rendering contexts). -/
abbrev AList := List (String × String)

/-- Lookup of a key in an association list, first binding wins; embeds
Python `d[k]` / `k in d` on dicts whose keys are unique. -/
def alookup : AList → String → Option String
  | [], _ => none
  | (k0, v) :: rest, k => if k0 = k then some v else alookup rest k

/-- Membership test for a key, embeds Python `k in d`. -/
def amem (m : AList) (k : String) : Bool :=
  (alookup m k).isSome

/-- Update preserving the position of an existing key, appending a new
key at the end: the semantics of Python `d[k] = v`. -/
def aupdate : AList → String → String → AList
  | [], k, v => [(k, v)]
  | (k0, v0) :: rest, k, v =>
    if k0 = k then (k0, v) :: rest else (k0, v0) :: aupdate rest k v

/-- Embeds Python `base.copy(); base.update(overlay)`: every binding of
`overlay` written into `base` in order. -/
def amerge (base overlay : AList) : AList :=
  overlay.foldl (fun acc kv => aupdate acc kv.fst kv.snd) base

/-- Embeds Python `list(d.keys())`. -/
def akeys (m : AList) : List String :=
  m.map Prod.fst

/-- Opening curly brace character (written via its code point so that it
never appears literally). -/
def lbrace : Char := Char.ofNat 123

/-- Closing curly brace character. -/
def rbrace : Char := Char.ofNat 125

/-- ASCII whitespace as stripped by Python `str.strip()` on the inputs in
play (space, tab, newline, carriage return). -/
def isSpaceChar (c : Char) : Bool :=
  c.toNat = 32 || c.toNat = 9 || c.toNat = 10 || c.toNat = 13

/-- ASCII digit test, embeds `str.isdigit` / the regex digit class on the
ASCII identifiers used for revision ids. -/
def isDigitChar (c : Char) : Bool :=
  48 ≤ c.toNat && c.toNat ≤ 57

/-- ASCII letter test. -/
def isAlphaChar (c : Char) : Bool :=
  (65 ≤ c.toNat && c.toNat ≤ 90) || (97 ≤ c.toNat && c.toNat ≤ 122)

/-- Character allowed after the first position of a jinja2 identifier. -/
def isIdentChar (c : Char) : Bool :=
  isAlphaChar c || isDigitChar c || c = '_'

/-- Jinja2 name token: a letter or underscore followed by letters, digits
or underscores (the templates in play are ASCII). -/
def isIdentStr (s : String) : Bool :=
  match s.data with
  | [] => false
  | c :: rest => (isAlphaChar c || c = '_') && rest.all isIdentChar

/-- Strip leading and trailing whitespace from a character list. -/
def trimChars (cs : List Char) : List Char :=
  ((cs.dropWhile isSpaceChar).reverse.dropWhile isSpaceChar).reverse

/-- Embeds Python `str.strip()` on the ASCII strings in play. -/
def trimStr (s : String) : String :=
  String.mk (trimChars s.data)

/-- Embeds `name.startswith("_")` from `PromptManager.__getattr__`. -/
def startsUnderscore (s : String) : Bool :=
  match s.data with
  | c :: _ => c = '_'
  | [] => false

/-- Split a character list at the first occurrence of `t`: returns the
part before, and `some` rest after it (or `none` when absent).  Embeds
Python `s.split(t, 1)`. -/
def breakAtChar (t : Char) : List Char → List Char × Option (List Char)
  | [] => ([], none)
  | c :: rest =>
    if c = t then ([], some rest)
    else
      match breakAtChar t rest with
      | (pre, post) => (c :: pre, post)

/-- Split a character list at every occurrence of `t`; embeds Python
`s.split(t)` (so the empty string yields one empty piece). -/
def splitAllChar (t : Char) : List Char → List (List Char)
  | [] => [[]]
  | c :: rest =>
    let r := splitAllChar t rest
    if c = t then [] :: r
    else
      match r with
      | pre :: tail => (c :: pre) :: tail
      | [] => [[c]]

/-- Prefix test on character lists. -/
def listPrefixOf : List Char → List Char → Bool
  | [], _ => true
  | _ :: _, [] => false
  | a :: as, b :: bs => a = b && listPrefixOf as bs

/-- Contiguous-sublist test on character lists. -/
def listSubOf (needle : List Char) : List Char → Bool
  | [] => needle.isEmpty
  | c :: rest => listPrefixOf needle (c :: rest) || listSubOf needle rest

/-- Substring containment: `strContains hay needle` is true when `needle`
occurs contiguously in `hay`. -/
def strContains (hay needle : String) : Bool :=
  listSubOf needle.data hay.data

/-- One fragment of a template after scanning for double-brace spans:
literal text, the inner content of a `\x7b\x7b...\x7d\x7d` span, or a
trailing unterminated `\x7b\x7b`. -/
inductive TPart where
  | lit (s : String)
  | span (content : String)
  | unclosed (rest : String)
deriving DecidableEq

/-- Scan for the first `\x7d\x7d`; returns the content before it and the
rest after it.  Together with `splitSpansAux` this embeds the non-greedy
regex `\x7b\x7b(.*?)\x7d\x7d` used by `_render_prompt` (manager.py:241)
and the jinja2 lexer on the same spans. -/
def findClose : List Char → Option (List Char × List Char)
  | [] => none
  | c :: rest =>
    if c = rbrace then
      match rest with
      | c2 :: rest2 =>
        if c2 = rbrace then some ([], rest2)
        else
          match findClose rest with
          | some (pre, post) => some (c :: pre, post)
          | none => none
      | [] => none
    else
      match findClose rest with
      | some (pre, post) => some (c :: pre, post)
      | none => none

/-- Prepend one literal character to a part list, merging into a leading
literal part. -/
def consLit (c : Char) (ps : List TPart) : List TPart :=
  match ps with
  | TPart.lit s :: rest => TPart.lit (String.mk (c :: s.data)) :: rest
  | _ => TPart.lit (String.mk [c]) :: ps

/-- Fuel-indexed scanner for double-brace spans; the fuel is always at
least the number of remaining characters plus one, so it never runs out
on the initial call made by `splitSpans`. -/
def splitSpansAux : Nat → List Char → List TPart
  | 0, cs =>
    match cs with
    | [] => []
    | c :: rest => [TPart.lit (String.mk (c :: rest))]
  | Nat.succ fuel, cs =>
    match cs with
    | [] => []
    | c :: rest =>
      if c = lbrace then
        match rest with
        | c2 :: rest2 =>
          if c2 = lbrace then
            match findClose rest2 with
            | some (content, rest3) =>
              TPart.span (String.mk content) :: splitSpansAux fuel rest3
            | none => [TPart.unclosed (String.mk rest2)]
          else consLit c (splitSpansAux fuel rest)
        | [] => consLit c (splitSpansAux fuel rest)
      else consLit c (splitSpansAux fuel rest)

/-- Split a template into literal text and double-brace spans, exactly as
the non-greedy regex of `_render_prompt` (manager.py:241) and the jinja2
lexer tokenize the fragment in play. -/
def splitSpans (s : String) : List TPart :=
  splitSpansAux (s.data.length + 1) s.data

/-- The only failure the modelled jinja2 fragment can raise:
`TemplateSyntaxError` from `Environment.from_string`. -/
inductive JinjaErr where
  | syntaxErr
deriving DecidableEq

/-- The representation jinja2's `DebugUndefined` prints for an unbound
variable `name`: the text `\x7b\x7b name \x7d\x7d` (whitespace
normalized around the name). -/
def undefStr (name : String) : String :=
  String.mk (lbrace :: lbrace :: ' ' :: name.data) ++ String.mk [' ', rbrace, rbrace]

/-- Render each part of a scanned template against a context.  Models the
external jinja2 `Environment(undefined=DebugUndefined)` on the fragment
this repository exercises: a span printing a plain identifier yields the
context value, or the `DebugUndefined` text when unbound; any other span
content (notably the colon-bearing `type:params` directive spans) and any
unterminated span is a `TemplateSyntaxError`. -/
def renderParts (ctx : AList) : List TPart → Except JinjaErr (List String)
  | [] => Except.ok []
  | TPart.lit s :: ps => Except.map (fun r => s :: r) (renderParts ctx ps)
  | TPart.span c :: ps =>
    if isIdentStr (trimStr c) then
      let piece :=
        match alookup ctx (trimStr c) with
        | some v => v
        | none => undefStr (trimStr c)
      Except.map (fun r => piece :: r) (renderParts ctx ps)
    else Except.error JinjaErr.syntaxErr
  | TPart.unclosed _ :: _ => Except.error JinjaErr.syntaxErr

/-- Concatenate rendered pieces. -/
def joinParts : List String → String :=
  List.foldr (fun a b => a ++ b) ""

/-- Model of `self.template_env.from_string(tpl).render(ctx)` with the
`DebugUndefined` environment built in `PromptManager.__new__`
(manager.py:83-85), on the template fragment in play. -/
def jinjaRender (tpl : String) (ctx : AList) : Except JinjaErr String :=
  Except.map joinParts (renderParts ctx (splitSpans tpl))

/-- Embeds `PromptManager._parse_key_value_params` (manager.py:163-171):
a flat comma-separated `key=value` list; a part without `=` is skipped. -/
def parseKeyValueParams (s : String) : AList :=
  if s = "" then []
  else
    (splitAllChar ',' s.data).foldl
      (fun acc part =>
        match breakAtChar '=' part with
        | (_, none) => acc
        | (k, some v) => aupdate acc (trimStr (String.mk k)) (trimStr (String.mk v)))
      []

/-- Parse an optionally negative decimal integer; embeds Python `int(s)`
on the already-stripped parameter strings in play (`none` is the
`ValueError` case). -/
def strToNat? (cs : List Char) : Option Nat :=
  if cs ≠ [] ∧ cs.all isDigitChar = true then
    some (cs.foldl (fun n c => 10 * n + (c.toNat - 48)) 0)
  else none

/-- Integer parse including a leading minus sign. -/
def strToInt? (s : String) : Option Int :=
  match s.data with
  | [] => none
  | c :: rest =>
    if c = '-' then (strToNat? rest).map (fun n => -(n : Int))
    else (strToNat? s.data).map (fun n => (n : Int))

/-- Embeds `PromptManager._process_single_placeholder`
(manager.py:173-231) applied to the regex group of one span.  `now`
stands for `datetime.datetime.now().strftime`; it returns `none` when
formatting raises, in which case the span is left unchanged. -/
def processSinglePlaceholder (now : String → Option String) (group : String) : String :=
  let full := String.mk [lbrace, lbrace] ++ group ++ String.mk [rbrace, rbrace]
  let content := trimStr group
  if !(content.data.contains ':') then full
  else
    match breakAtChar ':' content.data with
    | (_, none) => full
    | (tn, some ps) =>
      let typeName := trimStr (String.mk tn)
      let paramsStr := trimStr (String.mk ps)
      if typeName = "date" then
        let parsed := parseKeyValueParams paramsStr
        let fmt :=
          match alookup parsed ("format") with
          | some f => f
          | none => "%Y-%m-%d"
        match now fmt with
        | some d => d
        | none => full
      else if typeName = "number" then
        let parsed := parseKeyValueParams paramsStr
        match alookup parsed ("min") with
        | some m =>
          match strToInt? m with
          | some n => toString n
          | none => full
        | none => full
      else if typeName = "choice" then
        let choices :=
          ((splitAllChar ',' paramsStr.data).map (fun cs => trimStr (String.mk cs))).filter
            (fun s => !(s = ""))
        match choices with
        | c :: _ => c
        | [] => full
      else if typeName = "text" then
        match breakAtChar ',' paramsStr.data with
        | (t, rest?) =>
          let templateStr := trimStr (String.mk t)
          let localParamsStr :=
            match rest? with
            | some r => trimStr (String.mk r)
            | none => ""
          let localCtx := parseKeyValueParams localParamsStr
          match jinjaRender templateStr localCtx with
          | Except.ok r => r
          | Except.error _ => full
      else full

/-- Phase 1 of the two-phase renderer: `re.sub` of every double-brace
span through `_process_single_placeholder` (manager.py:241-243); an
unterminated `\x7b\x7b` is left in place, as the regex does not match
it. -/
def phase1 (now : String → Option String) (s : String) : String :=
  joinParts
    ((splitSpans s).map (fun p =>
      match p with
      | TPart.lit t => t
      | TPart.span c => processSinglePlaceholder now c
      | TPart.unclosed r => String.mk [lbrace, lbrace] ++ r))

/-- Embeds the FIRST definition of `PromptManager._render_prompt`
(manager.py:233-265), the two-phase renderer taking the raw template
value: Phase 1 rewrites directive spans, Phase 2 renders the result with
jinja2 over the default context merged with the per-call override, and a
Phase-2 exception falls back to the Phase-1 output.  In the source this
definition is shadowed by a second `_render_prompt` defined later in the
same class (manager.py:405), so it is dead code at runtime. -/
def renderPromptValue (now : String → Option String) (defaultCtx overrideCtx : AList)
    (raw : String) : String :=
  let processed := phase1 now raw
  let ctx := amerge defaultCtx overrideCtx
  match jinjaRender processed ctx with
  | Except.ok r => r
  | Except.error _ => processed

/-- Failures that `__getattr__` / the effective `_render_prompt` can
surface to a caller. -/
inductive LookupErr where
  /-- `AttributeError` from the leading-underscore guard (manager.py:381-382). -/
  | privateAttr (name : String)
  /-- `jinja2 TemplateSyntaxError` re-raised by the effective
  `_render_prompt` (manager.py:427-429). -/
  | syntaxError
  /-- `AttributeError` raised inside `_render_prompt` when the name is
  missing at render time (manager.py:407-409). -/
  | renderMiss (name : String)
  /-- `AttributeError` after the forced reload, whose message lists the
  currently known prompt names (manager.py:399-403). -/
  | notFound (name : String) (available : List String)
deriving DecidableEq

/-- Embeds the SECOND, effective definition of
`PromptManager._render_prompt` (manager.py:405-432): look the name up in
the prompts mapping and render the raw value directly with jinja2 over
`_dynamic_values` updated with `jinja_env_vars`; a `TemplateSyntaxError`
is re-raised.  (The branch returning an error string for other rendering
exceptions, manager.py:430-432, is unreachable in the modelled jinja2
fragment, whose only failure is the syntax error.) -/
def renderPromptByName (prompts dyn jinjaVars : AList) (name : String) :
    Except LookupErr String :=
  match alookup prompts name with
  | none => Except.error (LookupErr.renderMiss name)
  | some s =>
    match jinjaRender s (amerge dyn jinjaVars) with
    | Except.error _ => Except.error LookupErr.syntaxError
    | Except.ok r => Except.ok r

/-- The result of reading and yaml-parsing the backing prompts file:
missing file, unparsable yaml (`yaml.YAMLError`), parsable but not a
mapping, or a parsed flat mapping (empty or whitespace content parses to
the empty mapping). -/
inductive FileContent where
  | missing
  | yamlError
  | notMapping
  | mapping (m : AList)
deriving DecidableEq

/-- The `PromptManager` state relevant to loading and lookup: the
in-memory `_prompts` mapping, `instance_default_prompts`,
`_dynamic_values` (callables abstracted to the string they return),
`jinja_env_vars`, and `_skip_manual_check` (a class attribute that
`__init__` never assigns, so it stays `false` in the source). -/
structure Manager where
  prompts : AList
  defaults : AList
  dyn : AList
  jinjaVars : AList
  skipManualCheck : Bool
deriving DecidableEq

/-- The `_DEFAULT_PROMPTS_BASE` mapping (manager.py:56-59). -/
def defaultPromptsBase : AList :=
  [("example_prompt", "This is an example prompt.")]

/-- A manager as configured by `PromptManager.__new__` before any reload:
empty prompts and the given defaults. -/
def mkManager (defaults : AList) : Manager :=
  { prompts := [], defaults := defaults, dyn := [], jinjaVars := [], skipManualCheck := false }

/-- Embeds `PromptManager._check_for_manual_changes` (manager.py:322-378)
run against the backing file's content at check time: an unreadable or
non-mapping file returns early; otherwise every in-memory prompt whose
name is absent from the file is DELETED from `_prompts`
(manager.py:351-358), while added or modified names are only logged. -/
def checkManual (M : Manager) (file : FileContent) : Manager :=
  match file with
  | FileContent.missing => M
  | FileContent.yamlError => M
  | FileContent.notMapping => M
  | FileContent.mapping cur =>
    { M with prompts := M.prompts.filter (fun kv => amem cur kv.fst) }

/-- Embeds `PromptManager.reload` (manager.py:267-320).  When the file is
missing, forced, or `_prompts` is empty, the file is read (a missing file
is first created empty by `touch`, manager.py:280-282, which is why the
returned `FileContent` changes): a parsed mapping is merged over a copy
of the defaults (disk wins on collisions), a yaml error falls back to the
defaults alone, and a non-mapping file counts as empty.  `_load_state`
is not under src/; Modelled from the spec: it reads the applied-revision
log (State Store) and does not touch the Template Document, so it has no
effect on this state.  Finally `_check_for_manual_changes` runs unless
`_skip_manual_check` is set. -/
def reload (M : Manager) (file : FileContent) (force : Bool) : Manager × FileContent :=
  let step1 : Manager × FileContent :=
    match file with
    | FileContent.missing =>
      ({ M with prompts := amerge M.defaults [] }, FileContent.mapping [])
    | FileContent.yamlError =>
      if force || M.prompts.isEmpty then ({ M with prompts := M.defaults }, file)
      else (M, file)
    | FileContent.notMapping =>
      if force || M.prompts.isEmpty then ({ M with prompts := amerge M.defaults [] }, file)
      else (M, file)
    | FileContent.mapping m =>
      if force || M.prompts.isEmpty then ({ M with prompts := amerge M.defaults m }, file)
      else (M, file)
  let M2 :=
    if step1.fst.skipManualCheck then step1.fst
    else checkManual step1.fst step1.snd
  (M2, step1.snd)

/-- Embeds `PromptManager.__getattr__` (manager.py:380-403): private
names are rejected, dynamic values take precedence, a present prompt is
rendered by the effective `_render_prompt`, and otherwise one forced
reload is attempted before failing with an `AttributeError` that lists
the currently available prompt names.  Returns the lookup result
together with the manager state and file state after the call. -/
def getattrLookup (M : Manager) (file : FileContent) (name : String) :
    Except LookupErr String × Manager × FileContent :=
  if startsUnderscore name then (Except.error (LookupErr.privateAttr name), M, file)
  else
    match alookup M.dyn name with
    | some v => (Except.ok v, M, file)
    | none =>
      if (alookup M.prompts name).isSome then
        (renderPromptByName M.prompts M.dyn M.jinjaVars name, M, file)
      else
        let R := reload M file true
        if (alookup R.fst.prompts name).isSome then
          (renderPromptByName R.fst.prompts R.fst.dyn R.fst.jinjaVars name, R.fst, R.snd)
        else
          (Except.error (LookupErr.notFound name (akeys R.fst.prompts)), R.fst, R.snd)

/-- Modelled from the spec: a Migration Step (§3) — `rev_id`, a
description, and a pure transform over the Template Document; a transform
that raises is modelled as returning `Except.error ()`.  The step type
itself (`PromptMigration` / `prompt_revision`) is referenced by the
package but its code is not under src/. -/
structure Step where
  rev_id : String
  description : String
  transform : AList → Except Unit AList

/-- Modelled from the spec: the durable pair the engine owns — the
persisted Template Document and the applied-revision log (State Store).
The engine persists both after every step (§4.2, §4.4), so this state
always equals what is on disk. -/
structure EngineState where
  doc : AList
  applied : List String
deriving DecidableEq

/-- Modelled from the spec (§4.3): the sort key of a `rev_id` — the
leading run of digits read as a number, and the remaining suffix as
text. -/
def revKey (r : String) : Nat × String :=
  ((r.data.takeWhile isDigitChar).foldl (fun n c => 10 * n + (c.toNat - 48)) 0,
   String.mk (r.data.dropWhile isDigitChar))

/-- Lexicographic strict text comparison on character lists by code
point (Python string `<` on the ASCII suffixes in play). -/
def charsLTb : List Char → List Char → Bool
  | [], [] => false
  | [], _ :: _ => true
  | _ :: _, [] => false
  | a :: as, b :: bs =>
    if a.toNat < b.toNat then true
    else if b.toNat < a.toNat then false
    else charsLTb as bs

/-- Lexicographic strict order on (numeric prefix, textual suffix)
pairs. -/
def pairLT (p q : Nat × String) : Prop :=
  p.fst < q.fst ∨ (p.fst = q.fst ∧ charsLTb p.snd.data q.snd.data = true)

instance (p q : Nat × String) : Decidable (pairLT p q) := by
  unfold pairLT; infer_instance

/-- Modelled from the spec (§4.3): strict comparator on `rev_id`s,
numeric prefix compared numerically first, remaining suffix compared as
text. -/
def keyLT (a b : String) : Prop :=
  pairLT (revKey a) (revKey b)

instance (a b : String) : Decidable (keyLT a b) := by
  unfold keyLT; infer_instance

/-- Non-strict version of the `rev_id` comparator. -/
def keyLE (a b : String) : Prop :=
  keyLT a b ∨ revKey a = revKey b

instance (a b : String) : Decidable (keyLE a b) := by
  unfold keyLE; infer_instance

/-- Step ordering induced by the `rev_id` comparator. -/
def stepLE (a b : Step) : Prop :=
  keyLE a.rev_id b.rev_id

instance : DecidableRel stepLE := by
  intro a b; unfold stepLE; infer_instance

/-- Modelled from the spec (§4.3): `all()` returns the registered steps
ordered by the `rev_id` comparator (registration order is insertion
order, application order is the sort order). -/
def sortedSteps (reg : List Step) : List Step :=
  List.insertionSort stepLE reg

/-- Modelled from the spec (§4.2): `current() → Optional<rev_id>`, the
last entry of the applied log or none. -/
def currentRev (st : EngineState) : Option String :=
  st.applied.reverse.head?

/-- Modelled from the spec (§4.4 step 2): the ordered pending list — all
registered steps with `rev_id` strictly greater than `current_rev` under
the registry ordering (all of them when nothing was applied yet). -/
def pendingSteps (reg : List Step) (cur : Option String) : List Step :=
  match cur with
  | none => sortedSteps reg
  | some c => (sortedSteps reg).filter (fun s => decide (keyLT c s.rev_id))

/-- Modelled from the spec (§4.4 step 4): apply the pending steps in
order; after each successful transform the document is persisted and the
`rev_id` appended to the applied log before the loop advances.  A raising
transform stops the run and reports `MigrationApplyError` naming the
failing `rev_id` (the `some` component), leaving the state exactly at the
last fully-applied step. -/
def applySteps : List Step → EngineState → EngineState × Option String
  | [], st => (st, none)
  | s :: rest, st =>
    match s.transform st.doc with
    | Except.error _ => (st, some s.rev_id)
    | Except.ok d => applySteps rest { doc := d, applied := st.applied ++ [s.rev_id] }

/-- Modelled from the spec (§4.4): `upgrade()` with no target — compute
the pending list from the current revision and apply it. -/
def upgrade (reg : List Step) (st : EngineState) : EngineState × Option String :=
  applySteps (pendingSteps reg (currentRev st)) st

/-- Specification-side helper: the state after running a list of steps
that all succeed (`none` when one of them raises). -/
def prefixRun : List Step → EngineState → Option EngineState
  | [], st => some st
  | s :: rest, st =>
    match s.transform st.doc with
    | Except.error _ => none
    | Except.ok d => prefixRun rest { doc := d, applied := st.applied ++ [s.rev_id] }

/-- The trimmed contents of the identifier spans of a template, under the
same scan the renderer performs. -/
def spanContents (s : String) : List String :=
  (splitSpans s).filterMap (fun p =>
    match p with
    | TPart.span c => some (trimStr c)
    | _ => none)

/-- True when every span of the template prints a plain identifier (the
fragment on which jinja2 cannot raise). -/
def wellFormedSpans (s : String) : Bool :=
  (splitSpans s).all (fun p =>
    match p with
    | TPart.span c => isIdentStr (trimStr c)
    | TPart.unclosed _ => false
    | TPart.lit _ => true)

/-- The backing file of the case-insensitivity scenario from
tests/test_manager.py::test_attribute_access. -/
def attrFile : FileContent :=
  FileContent.mapping
    [("GREETING", "Hello, world!"), ("QUESTION_ONE", "What is your name?"),
     ("question_two", "How are you today?")]

/-- The manager right after `PromptManager(prompt_file, state_file)`
loaded `attrFile` (the constructor ends in `reload(force_reload=True)`). -/
def attrManager : Manager :=
  (reload (mkManager defaultPromptsBase) attrFile true).fst

/-- A backing file holding the template of
tests/test_dynamic_values.py::test_choice_placeholder. -/
def choiceFile : FileContent :=
  FileContent.mapping [("CHOICE_TEST", "I recommend \x7b\x7bchoice:apple,banana,cherry\x7d\x7d")]

/-- The manager right after the constructor loaded `choiceFile`. -/
def choiceManager : Manager :=
  (reload (mkManager defaultPromptsBase) choiceFile true).fst

/-- Concrete manager for the lookup-miss witness. -/
def missManager : Manager :=
  { prompts := [("A", "x")], defaults := defaultPromptsBase, dyn := [("greet", "hi")],
    jinjaVars := [], skipManualCheck := false }

/-- Concrete backing file for the lookup-miss witness. -/
def missFile : FileContent :=
  FileContent.mapping [("A", "x")]

/-- Concrete manager for the reconciliation-deletion witness. -/
def reconManager : Manager :=
  { prompts := [("FOO", "bar"), ("KEEP", "v")], defaults := [], dyn := [], jinjaVars := [],
    skipManualCheck := false }

end Promptmigrate

namespace Promptmigrate

/-! Helper lemmas. -/

theorem reload_preserves (M : Manager) (file : FileContent) (force : Bool) :
    (reload M file force).fst.dyn = M.dyn ∧
    (reload M file force).fst.jinjaVars = M.jinjaVars ∧
    (reload M file force).fst.defaults = M.defaults ∧
    (reload M file force).fst.skipManualCheck = M.skipManualCheck := by
  unfold reload checkManual
  cases file <;> simp <;> split <;> simp_all <;> split <;> simp_all

theorem alookup_filter_amem_none (cur : AList) (name : String) (habs : alookup cur name = none) :
    ∀ l : AList, alookup (l.filter (fun kv => amem cur kv.fst)) name = none := by
  intro l
  induction l with
  | nil => rfl
  | cons kv rest ih =>
    cases hk : amem cur kv.fst with
    | false => simpa [List.filter_cons, hk] using ih
    | true =>
      have hkn : kv.fst ≠ name := by
        intro h
        rw [h] at hk
        simp [amem, habs] at hk
      simpa [List.filter_cons, hk, alookup, hkn] using ih

theorem reload_mapping_force (M : Manager) (cur : AList) (hskip : M.skipManualCheck = false) :
    (reload M (FileContent.mapping cur) true).fst.prompts
      = (amerge M.defaults cur).filter (fun kv => amem cur kv.fst) ∧
    (reload M (FileContent.mapping cur) true).snd = FileContent.mapping cur := by
  simp [reload, checkManual, hskip]

/-! Claim theorems. -/

/-- C2: the claim says a Phase-2 template-engine failure must fall back
to the Phase-1 output, so rendering a successfully looked-up template
never propagates an exception.  The effective `_render_prompt`
(manager.py:405-432) shadows the two-phase renderer and re-raises the
jinja2 `TemplateSyntaxError`, so rendering the looked-up `CHOICE_TEST`
template raises to the caller; the shadowed first definition
(manager.py:233-265) would have returned the Phase-1 string
`I recommend apple`. -/
theorem claim2_effective_render_raises :
    alookup choiceManager.prompts ("CHOICE_TEST")
      = some ("I recommend \x7b\x7bchoice:apple,banana,cherry\x7d\x7d") ∧
    (getattrLookup choiceManager choiceFile ("CHOICE_TEST")).fst
      = Except.error LookupErr.syntaxError ∧
    renderPromptByName choiceManager.prompts [] [] ("CHOICE_TEST")
      = Except.error LookupErr.syntaxError ∧
    renderPromptValue (fun _ => none) [] [] ("I recommend \x7b\x7bchoice:apple,banana,cherry\x7d\x7d")
      = ("I recommend apple") := by
  decide

/-- C5: the lookup-miss contract of `__getattr__` — dynamic values take
precedence over stored prompts, and when a (non-private) name is in
neither mapping exactly one forced reload runs; if the name is still
absent, the lookup fails with the `AttributeError` that enumerates the
currently known prompt names, and the manager is left exactly at the
post-reload state (dynamic values, jinja variables and defaults are
untouched). -/
theorem claim5_lookup_miss_contract (M : Manager) (file : FileContent) (name : String)
    (hpriv : startsUnderscore name = false) :
    (∀ v, alookup M.dyn name = some v → getattrLookup M file name = (Except.ok v, M, file)) ∧
    (alookup M.dyn name = none → alookup M.prompts name = none →
      alookup (reload M file true).fst.prompts name = none →
      getattrLookup M file name =
        (Except.error (LookupErr.notFound name (akeys (reload M file true).fst.prompts)),
         (reload M file true).fst, (reload M file true).snd)) ∧
    (reload M file true).fst.dyn = M.dyn ∧
    (reload M file true).fst.jinjaVars = M.jinjaVars ∧
    (reload M file true).fst.defaults = M.defaults := by
  refine ⟨?_, ?_, (reload_preserves M file true).1, (reload_preserves M file true).2.1,
    (reload_preserves M file true).2.2.1⟩
  · intro v hv
    simp [getattrLookup, hpriv, hv]
  · intro h1 h2 h3
    simp [getattrLookup, hpriv, h1, h2, h3]

/-- Witness for C5 at a concrete manager: looking up the absent name `B`
fails with the `AttributeError` listing the known names, after the one
forced reload. -/
theorem claim5_lookup_miss_contract_witness :
    getattrLookup missManager missFile ("B")
      = (Except.error (LookupErr.notFound ("B") (akeys (reload missManager missFile true).fst.prompts)),
         (reload missManager missFile true).fst, (reload missManager missFile true).snd) :=
  (claim5_lookup_miss_contract missManager missFile ("B") (by decide)).2.1
    (by decide) (by decide) (by decide)

/-- C6: the claim (and tests/test_manager.py::test_attribute_access)
says a stored `QUESTION_ONE` is retrievable through the spelling
`question_one`.  The `__getattr__` in the source has no case-insensitive
fallback, so the lookup raises `AttributeError` after the forced reload
even though the prompt is stored under the upper-case spelling. -/
theorem claim6_no_caseinsensitive_fallback :
    alookup attrManager.prompts ("QUESTION_ONE") = some ("What is your name?") ∧
    (getattrLookup attrManager attrFile ("question_one")).fst
      = Except.error
          (LookupErr.notFound ("question_one") ["GREETING", "QUESTION_ONE", "question_two"]) := by
  decide

/-- C7: the claim says a `choice:v1,v2,...` span renders to the first
listed value.  The in-source Phase-1 directive processor does return the
first choice (and leaves an empty list unchanged), but the effective
`_render_prompt` never runs Phase 1 — it hands the raw span to jinja2,
which raises `TemplateSyntaxError` on the colon, re-raised to the
caller. -/
theorem claim7_choice_directive_shadowed :
    processSinglePlaceholder (fun _ => none) ("choice:a,b,c") = ("a") ∧
    processSinglePlaceholder (fun _ => none) ("choice:")
      = String.mk [lbrace, lbrace] ++ ("choice:") ++ String.mk [rbrace, rbrace] ∧
    renderPromptValue (fun _ => none) [] [] ("\x7b\x7bchoice:a,b,c\x7d\x7d") = ("a") ∧
    renderPromptByName [("P", "\x7b\x7bchoice:a,b,c\x7d\x7d")] [] [] ("P")
      = Except.error LookupErr.syntaxError := by
  decide

/-- C9: the claim says defaults merge under the on-disk document and a
missing backing file yields exactly the defaults.  The merge inside
`reload` does behave that way, but `reload` then runs
`_check_for_manual_changes`, which deletes every in-memory key absent
from the (just-touched, hence empty) file: a missing file therefore
yields the empty mapping, and a default key absent on disk does not
survive any reload. -/
theorem claim9_reload_loses_defaults :
    amerge defaultPromptsBase [] = defaultPromptsBase ∧
    amerge defaultPromptsBase [("K", "V")]
      = [("example_prompt", "This is an example prompt."), ("K", "V")] ∧
    (reload (mkManager defaultPromptsBase) FileContent.missing true).fst.prompts = [] ∧
    (reload (mkManager defaultPromptsBase) (FileContent.mapping [("K", "V")]) true).fst.prompts
      = [("K", "V")] ∧
    defaultPromptsBase ≠ [] := by
  decide

/-- C10: the reconciliation pass run on every reload mutates state — a
prompt present in memory but absent from the backing file is deleted by
`_check_for_manual_changes`, so after a reload the name no longer
resolves and a subsequent lookup fails with the `AttributeError`
enumerating the remaining names. -/
theorem claim10_reconciliation_deletes (M : Manager) (cur : AList) (name : String)
    (hskip : M.skipManualCheck = false)
    (hpriv : startsUnderscore name = false)
    (hdyn : alookup M.dyn name = none)
    (hmem : amem M.prompts name = true)
    (habs : alookup cur name = none) :
    (alookup M.prompts name).isSome = true ∧
    alookup (checkManual M (FileContent.mapping cur)).prompts name = none ∧
    alookup (reload M (FileContent.mapping cur) true).fst.prompts name = none ∧
    ∃ avail,
      (getattrLookup (reload M (FileContent.mapping cur) true).fst (FileContent.mapping cur)
          name).fst
        = Except.error (LookupErr.notFound name avail) := by
  have hcheck : alookup (checkManual M (FileContent.mapping cur)).prompts name = none := by
    simpa [checkManual] using alookup_filter_amem_none cur name habs M.prompts
  have hreload : alookup (reload M (FileContent.mapping cur) true).fst.prompts name = none := by
    rw [(reload_mapping_force M cur hskip).1]
    exact alookup_filter_amem_none cur name habs _
  refine ⟨hmem, hcheck, hreload, ?_⟩
  set M1 := (reload M (FileContent.mapping cur) true).fst with hM1
  have hdyn1 : alookup M1.dyn name = none := by
    rw [hM1, (reload_preserves M (FileContent.mapping cur) true).1]
    exact hdyn
  have hskip1 : M1.skipManualCheck = false := by
    rw [hM1, (reload_preserves M (FileContent.mapping cur) true).2.2.2]
    exact hskip
  have hreload1 : alookup (reload M1 (FileContent.mapping cur) true).fst.prompts name = none := by
    rw [(reload_mapping_force M1 cur hskip1).1]
    exact alookup_filter_amem_none cur name habs _
  refine ⟨akeys (reload M1 (FileContent.mapping cur) true).fst.prompts, ?_⟩
  simp [getattrLookup, hpriv, hdyn1, hreload, hreload1]

/-- Witness for C10 at a concrete manager: the prompt `FOO` is in memory
and absent from the file, and after the reload it is gone and the lookup
fails. -/
theorem claim10_reconciliation_deletes_witness :
    (alookup reconManager.prompts ("FOO")).isSome = true ∧
    alookup (checkManual reconManager (FileContent.mapping [("KEEP", "v")])).prompts ("FOO")
      = none ∧
    alookup (reload reconManager (FileContent.mapping [("KEEP", "v")]) true).fst.prompts ("FOO")
      = none ∧
    ∃ avail,
      (getattrLookup (reload reconManager (FileContent.mapping [("KEEP", "v")]) true).fst
          (FileContent.mapping [("KEEP", "v")]) ("FOO")).fst
        = Except.error (LookupErr.notFound ("FOO") avail) :=
  claim10_reconciliation_deletes reconManager [("KEEP", "v")] ("FOO")
    (by decide) (by decide) (by decide) (by decide) (by decide)

theorem listPrefixOf_append (a b : List Char) : listPrefixOf a (a ++ b) = true := by
  induction a with
  | nil => rfl
  | cons c cs ih => simp [listPrefixOf, ih]

theorem listSubOf_here (x rest : List Char) : listSubOf x (x ++ rest) = true := by
  cases x with
  | nil =>
    cases rest with
    | nil => rfl
    | cons c cs => simp [listSubOf, listPrefixOf]
  | cons c cs => simp [listSubOf, listPrefixOf, listPrefixOf_append]

theorem listSubOf_cons (x l : List Char) (c : Char) (h : listSubOf x l = true) :
    listSubOf x (c :: l) = true := by
  simp [listSubOf, h]

theorem listSubOf_append_left (x l a : List Char) (h : listSubOf x l = true) :
    listSubOf x (a ++ l) = true := by
  induction a with
  | nil => exact h
  | cons c cs ih => exact listSubOf_cons x (cs ++ l) c ih

theorem strdata_append (s t : String) : (s ++ t).data = s.data ++ t.data := by
  cases s
  cases t
  rfl

theorem mem_joinParts_contains (x : String) (outs : List String) (h : x ∈ outs) :
    strContains (joinParts outs) x = true := by
  induction outs with
  | nil => cases h
  | cons s rest ih =>
    have hjoin : joinParts (s :: rest) = s ++ joinParts rest := rfl
    cases h with
    | head =>
      show listSubOf x.data (joinParts (x :: rest)).data = true
      have hx : joinParts (x :: rest) = x ++ joinParts rest := rfl
      rw [hx, strdata_append]
      exact listSubOf_here x.data (joinParts rest).data
    | tail _ hmem =>
      show listSubOf x.data (joinParts (s :: rest)).data = true
      rw [hjoin, strdata_append]
      exact listSubOf_append_left x.data (joinParts rest).data s.data (ih hmem)

/-- The well-formedness predicate of one scanned part. -/
def partWF (p : TPart) : Bool :=
  match p with
  | TPart.span c => isIdentStr (trimStr c)
  | TPart.unclosed _ => false
  | TPart.lit _ => true

theorem renderParts_wf (ctx : AList) (ps : List TPart) (h : ps.all partWF = true) :
    ∃ outs, renderParts ctx ps = Except.ok outs ∧
      ∀ c, TPart.span c ∈ ps → alookup ctx (trimStr c) = none → undefStr (trimStr c) ∈ outs := by
  induction ps with
  | nil => exact ⟨[], rfl, by intro c hc; cases hc⟩
  | cons p rest ih =>
    rw [List.all_cons, Bool.and_eq_true] at h
    obtain ⟨outs, heq, hsat⟩ := ih h.2
    cases p with
    | lit s =>
      refine ⟨s :: outs, ?_, ?_⟩
      · simp [renderParts, heq, Except.map]
      · intro c hc hun
        cases hc with
        | tail _ hmem => exact List.mem_cons_of_mem _ (hsat c hmem hun)
    | span c0 =>
      have hid : isIdentStr (trimStr c0) = true := h.1
      cases hlk : alookup ctx (trimStr c0) with
      | some v =>
        refine ⟨v :: outs, ?_, ?_⟩
        · simp [renderParts, hid, hlk, heq, Except.map]
        · intro c hc hun
          cases hc with
          | head => rw [hun] at hlk; cases hlk
          | tail _ hmem => exact List.mem_cons_of_mem _ (hsat c hmem hun)
      | none =>
        refine ⟨undefStr (trimStr c0) :: outs, ?_, ?_⟩
        · simp [renderParts, hid, hlk, heq, Except.map]
        · intro c hc hun
          cases hc with
          | head => exact List.mem_cons_self _ _
          | tail _ hmem => exact List.mem_cons_of_mem _ (hsat c hmem hun)
    | unclosed r => cases h.1

/-- C8 counterexample: the claim says an unbound colon-free span is
emitted literally unchanged; rendering `x\x7b\x7bfoo\x7d\x7dy` succeeds
but the `DebugUndefined` representation normalizes the whitespace, so
the output does not contain the original span text. -/
theorem claim8_counterexample :
    renderPromptByName [("P", "x\x7b\x7bfoo\x7d\x7dy")] [] [] ("P")
      = Except.ok ("x\x7b\x7b foo \x7d\x7dy") ∧
    strContains ("x\x7b\x7b foo \x7d\x7dy") ("\x7b\x7bfoo\x7d\x7d") = false := by
  decide

/-- C8 (amended): for a template whose spans all print plain
identifiers, rendering through the effective `_render_prompt` never
raises, and an identifier span bound neither in the dynamic values nor
the jinja variables appears in the output as the engine's canonical
undefined representation `\x7b\x7b name \x7d\x7d` (same variable name,
whitespace normalized) — it is neither dropped nor replaced by the empty
string. -/
theorem claim8_undefined_vars_survive (tpl name : String) (dyn jv : AList)
    (hwf : wellFormedSpans tpl = true)
    (hmem : name ∈ spanContents tpl)
    (hunb : alookup (amerge dyn jv) name = none) :
    ∃ out, renderPromptByName [("P", tpl)] dyn jv ("P") = Except.ok out ∧
      strContains out (undefStr name) = true := by
  have hwf2 : (splitSpans tpl).all partWF = true := by
    rw [wellFormedSpans] at hwf
    exact hwf
  obtain ⟨outs, heq, hsat⟩ := renderParts_wf (amerge dyn jv) (splitSpans tpl) hwf2
  obtain ⟨p, hp, hname⟩ := List.mem_filterMap.mp hmem
  have hspan : ∃ c, p = TPart.span c ∧ trimStr c = name := by
    cases p with
    | lit s => cases hname
    | span c => exact ⟨c, rfl, by cases hname; rfl⟩
    | unclosed r => cases hname
  obtain ⟨c, hpc, hcn⟩ := hspan
  rw [hpc] at hp
  have hout : undefStr name ∈ outs := by
    rw [← hcn]
    exact hsat c hp (by rw [hcn]; exact hunb)
  refine ⟨joinParts outs, ?_, mem_joinParts_contains (undefStr name) outs hout⟩
  have hlook : alookup [(("P" : String), tpl)] ("P") = some tpl := by simp [alookup]
  simp [renderPromptByName, hlook, jinjaRender, heq, Except.map]

/-- Witness for C8 (amended) at a concrete template. -/
theorem claim8_undefined_vars_survive_witness :
    wellFormedSpans ("Hi \x7b\x7bfoo\x7d\x7d!") = true ∧
    ∃ out,
      renderPromptByName [("P", "Hi \x7b\x7bfoo\x7d\x7d!")] [] [] ("P") = Except.ok out ∧
      strContains out (undefStr ("foo")) = true :=
  ⟨by decide,
   claim8_undefined_vars_survive ("Hi \x7b\x7bfoo\x7d\x7d!") ("foo") [] []
     (by decide) (by decide) rfl⟩

/-! Order lemmas for the `rev_id` comparator. -/

theorem charToNat_inj (a b : Char) (h : a.toNat = b.toNat) : a = b := by
  apply Char.ext
  apply UInt32.ext
  simpa [Char.toNat, UInt32.toNat] using h

theorem charsLTb_irrefl : ∀ cs, charsLTb cs cs = false := by
  intro cs
  induction cs with
  | nil => rfl
  | cons c rest ih => simp [charsLTb, ih]

theorem charsLTb_trans :
    ∀ a b c, charsLTb a b = true → charsLTb b c = true → charsLTb a c = true := by
  intro a
  induction a with
  | nil =>
    intro b c h1 h2
    cases b with
    | nil => cases h1
    | cons y ys =>
      cases c with
      | nil => cases h2
      | cons z zs => rfl
  | cons x xs ih =>
    intro b c h1 h2
    cases b with
    | nil => cases h1
    | cons y ys =>
      cases c with
      | nil => cases h2
      | cons z zs =>
        by_cases hxy : x.toNat < y.toNat
        · by_cases hyz : y.toNat < z.toNat
          · simp [charsLTb, show x.toNat < z.toNat from by omega]
          · by_cases hzy : z.toNat < y.toNat
            · simp [charsLTb, hyz, hzy] at h2
            · simp [charsLTb, show x.toNat < z.toNat from by omega]
        · by_cases hyx : y.toNat < x.toNat
          · simp [charsLTb, hxy, hyx] at h1
          · by_cases hyz : y.toNat < z.toNat
            · simp [charsLTb, show x.toNat < z.toNat from by omega]
            · by_cases hzy : z.toNat < y.toNat
              · simp [charsLTb, hyz, hzy] at h2
              · have hxz1 : ¬ x.toNat < z.toNat := by omega
                have hxz2 : ¬ z.toNat < x.toNat := by omega
                simp [charsLTb, hxy, hyx] at h1
                simp [charsLTb, hyz, hzy] at h2
                simp [charsLTb, hxz1, hxz2]
                exact ih ys zs h1 h2

theorem charsLTb_eq_of_not :
    ∀ a b, charsLTb a b = false → charsLTb b a = false → a = b := by
  intro a
  induction a with
  | nil =>
    intro b h1 _
    cases b with
    | nil => rfl
    | cons y ys => cases h1
  | cons x xs ih =>
    intro b h1 h2
    cases b with
    | nil => cases h2
    | cons y ys =>
      by_cases hxy : x.toNat < y.toNat
      · simp [charsLTb, hxy] at h1
      · by_cases hyx : y.toNat < x.toNat
        · simp [charsLTb, hyx] at h2
        · simp [charsLTb, hxy, hyx] at h1 h2
          rw [charToNat_inj x y (by omega), ih ys h1 h2]

theorem pairLT_trans {p q r : Nat × String} (h1 : pairLT p q) (h2 : pairLT q r) : pairLT p r := by
  rcases h1 with h1 | ⟨e1, s1⟩
  · rcases h2 with h2 | ⟨e2, s2⟩
    · exact Or.inl (Nat.lt_trans h1 h2)
    · exact Or.inl (e2 ▸ h1)
  · rcases h2 with h2 | ⟨e2, s2⟩
    · exact Or.inl (by rw [e1]; exact h2)
    · exact Or.inr ⟨e1.trans e2, charsLTb_trans _ _ _ s1 s2⟩

theorem pairLT_irrefl (p : Nat × String) : ¬ pairLT p p := by
  rintro (h | ⟨_, h⟩)
  · exact Nat.lt_irrefl _ h
  · rw [charsLTb_irrefl] at h
    cases h

theorem pairLT_asymm {p q : Nat × String} (h1 : pairLT p q) : ¬ pairLT q p :=
  fun h2 => pairLT_irrefl p (pairLT_trans h1 h2)

theorem pairLT_connex {p q : Nat × String} (h1 : ¬ pairLT p q) (h2 : ¬ pairLT q p) : p = q := by
  obtain ⟨n1, s1⟩ := p
  obtain ⟨n2, s2⟩ := q
  have hn12 : ¬ n1 < n2 := fun h => h1 (Or.inl h)
  have hn21 : ¬ n2 < n1 := fun h => h2 (Or.inl h)
  have hn : n1 = n2 := by omega
  have hs12 : charsLTb s1.data s2.data = false := by
    cases hc : charsLTb s1.data s2.data with
    | true => exact absurd (Or.inr ⟨hn, hc⟩) h1
    | false => rfl
  have hs21 : charsLTb s2.data s1.data = false := by
    cases hc : charsLTb s2.data s1.data with
    | true => exact absurd (Or.inr ⟨hn.symm, hc⟩) h2
    | false => rfl
  have hd := charsLTb_eq_of_not _ _ hs12 hs21
  have hs : s1 = s2 := by
    cases s1
    cases s2
    exact congrArg String.mk hd
  rw [hn, hs]

theorem keyLE_refl (a : String) : keyLE a a :=
  Or.inr rfl

theorem keyLE_trans {a b c : String} (h1 : keyLE a b) (h2 : keyLE b c) : keyLE a c := by
  rcases h1 with h1 | e1
  · rcases h2 with h2 | e2
    · exact Or.inl (pairLT_trans h1 h2)
    · exact Or.inl (show pairLT (revKey a) (revKey c) from e2 ▸ h1)
  · rcases h2 with h2 | e2
    · exact Or.inl (show pairLT (revKey a) (revKey c) by rw [e1]; exact h2)
    · exact Or.inr (e1.trans e2)

theorem keyLE_total (a b : String) : keyLE a b ∨ keyLE b a := by
  by_cases h1 : pairLT (revKey a) (revKey b)
  · exact Or.inl (Or.inl h1)
  · by_cases h2 : pairLT (revKey b) (revKey a)
    · exact Or.inr (Or.inl h2)
    · exact Or.inl (Or.inr (pairLT_connex h1 h2))

theorem not_keyLT_of_keyLE {a b : String} (h : keyLE a b) : ¬ keyLT b a := by
  intro hlt
  rcases h with h | e
  · exact pairLT_asymm h hlt
  · rw [keyLT, e] at hlt
    exact pairLT_irrefl _ hlt

theorem keyLE_of_not_keyLT {a b : String} (h : ¬ keyLT a b) : keyLE b a := by
  by_cases h2 : keyLT b a
  · exact Or.inl h2
  · exact Or.inr (pairLT_connex h2 h)

theorem keyLT_of_keyLE_of_keyLT {a b c : String} (h1 : keyLE a b) (h2 : keyLT b c) :
    keyLT a c := by
  rcases h1 with h1 | e
  · exact pairLT_trans h1 h2
  · rw [keyLT, e]
    exact h2

instance : IsTotal Step stepLE :=
  ⟨fun a b => keyLE_total a.rev_id b.rev_id⟩

instance : IsTrans Step stepLE :=
  ⟨fun _ _ _ h1 h2 => keyLE_trans h1 h2⟩

/-! Engine lemmas. -/

theorem sortedSteps_pairwise (reg : List Step) : (sortedSteps reg).Pairwise stepLE :=
  List.sorted_insertionSort stepLE reg

theorem sortedSteps_perm (reg : List Step) : List.Perm (sortedSteps reg) reg :=
  List.perm_insertionSort stepLE reg

theorem take_succ_get? {α} : ∀ (l : List α) (k : Nat), (l.take (k + 1)).get? k = l.get? k := by
  intro l
  induction l with
  | nil => intro k; rfl
  | cons x xs ih =>
    intro k
    cases k with
    | zero => rfl
    | succ k => exact ih k

theorem take_take_succ {α} : ∀ (l : List α) (k : Nat), (l.take (k + 1)).take k = l.take k := by
  intro l
  induction l with
  | nil => intro k; rfl
  | cons x xs ih =>
    intro k
    cases k with
    | zero => rfl
    | succ k =>
      show x :: (xs.take (k + 1)).take k = x :: xs.take k
      rw [ih k]

theorem applySteps_fail :
    ∀ (k : Nat) (l : List Step) (st st' : EngineState) (sk : Step),
      l.get? k = some sk →
      prefixRun (l.take k) st = some st' →
      sk.transform st'.doc = Except.error () →
      applySteps l st = (st', some sk.rev_id) := by
  intro k
  induction k with
  | zero =>
    intro l st st' sk hsk hpre hfail
    cases l with
    | nil => cases hsk
    | cons x rest =>
      have hx : x = sk := by
        have : some x = some sk := hsk
        injection this
      have hst : st = st' := by
        have : some st = some st' := hpre
        injection this
      subst hx
      subst hst
      simp [applySteps, hfail]
  | succ k ih =>
    intro l st st' sk hsk hpre hfail
    cases l with
    | nil => cases hsk
    | cons x rest =>
      have hsk' : rest.get? k = some sk := hsk
      rw [List.take_succ_cons] at hpre
      cases htr : x.transform st.doc with
      | error e =>
        rw [prefixRun, htr] at hpre
        cases hpre
      | ok d =>
        rw [prefixRun, htr] at hpre
        rw [applySteps, htr]
        exact ih rest _ st' sk hsk' hpre hfail

theorem prefixRun_applied :
    ∀ (l : List Step) (st st' : EngineState),
      prefixRun l st = some st' →
      st'.applied = st.applied ++ l.map Step.rev_id := by
  intro l
  induction l with
  | nil =>
    intro st st' h
    have : st = st' := by
      have : some st = some st' := h
      injection this
    subst this
    simp
  | cons x rest ih =>
    intro st st' h
    cases htr : x.transform st.doc with
    | error e =>
      rw [prefixRun, htr] at h
      cases h
    | ok d =>
      rw [prefixRun, htr] at h
      have := ih _ st' h
      simpa [List.append_assoc] using this

theorem applySteps_ok_applied :
    ∀ (l : List Step) (st st' : EngineState),
      applySteps l st = (st', none) →
      st'.applied = st.applied ++ l.map Step.rev_id := by
  intro l
  induction l with
  | nil =>
    intro st st' h
    have hst : st = st' := congrArg Prod.fst h
    subst hst
    simp
  | cons x rest ih =>
    intro st st' h
    cases htr : x.transform st.doc with
    | error e =>
      rw [applySteps, htr] at h
      have : some x.rev_id = none := congrArg Prod.snd h
      cases this
    | ok d =>
      rw [applySteps, htr] at h
      have := ih _ st' h
      simpa [List.append_assoc] using this

theorem last_mem {α} (l : List α) (z : α) (h : l.reverse.head? = some z) : z ∈ l := by
  cases hr : l.reverse with
  | nil =>
    rw [hr] at h
    cases h
  | cons w rest =>
    rw [hr] at h
    have hw : w = z := by
      have : some w = some z := h
      injection this
    subst hw
    have : w ∈ l.reverse := by
      rw [hr]
      exact List.mem_cons_self w rest
    exact List.mem_reverse.mp this

theorem pairwise_rel_last {R : Step → Step → Prop} (hrefl : ∀ x, R x x) :
    ∀ (l : List Step) (z a : Step), l.Pairwise R → l.reverse.head? = some z → a ∈ l → R a z := by
  intro l
  induction l with
  | nil =>
    intro z a _ hz _
    cases hz
  | cons x xs ih =>
    intro z a hp hz ha
    cases xs with
    | nil =>
      have hxz : x = z := by
        have : some x = some z := hz
        injection this
      subst hxz
      cases ha with
      | head => exact hrefl x
      | tail _ hmem => cases hmem
    | cons y ys =>
      have hz' : (y :: ys).reverse.head? = some z := by
        rw [List.reverse_cons] at hz
        cases hrev : (y :: ys).reverse with
        | nil => exact absurd (congrArg List.length hrev) (by simp)
        | cons w rest =>
          rw [hrev] at hz
          simpa using hz
      rcases List.pairwise_cons.mp hp with ⟨hx, hxs⟩
      cases ha with
      | head => exact hx z (last_mem _ _ hz')
      | tail _ hmem => exact ih z a hxs hz' hmem

theorem filter_eq_nil_of_false {α} (p : α → Bool) :
    ∀ l : List α, (∀ a ∈ l, p a = false) → l.filter p = [] := by
  intro l
  induction l with
  | nil => intro _; rfl
  | cons x xs ih =>
    intro h
    rw [List.filter_cons, h x (List.mem_cons_self x xs)]
    exact ih (fun a ha => h a (List.mem_cons_of_mem x ha))

/-- C1: partial-failure atomicity of `upgrade` — if the first `k` pending
steps succeed and step `k`'s transform raises, `upgrade` fails with the
`MigrationApplyError` naming that step's `rev_id`, the persisted state is
exactly the state after the `k` completed steps (the applied log extends
by exactly their ids, so `current_rev` is the last successful id), and no
step after `k` is attempted: the run equals the run of the truncated
pending list. -/
theorem claim1_partial_failure_atomicity (reg : List Step) (st st' : EngineState) (k : Nat)
    (sk : Step)
    (hsk : (pendingSteps reg (currentRev st)).get? k = some sk)
    (hpre : prefixRun ((pendingSteps reg (currentRev st)).take k) st = some st')
    (hfail : sk.transform st'.doc = Except.error ()) :
    upgrade reg st = (st', some sk.rev_id) ∧
    st'.applied = st.applied ++ ((pendingSteps reg (currentRev st)).take k).map Step.rev_id ∧
    upgrade reg st = applySteps ((pendingSteps reg (currentRev st)).take (k + 1)) st := by
  have h1 : applySteps (pendingSteps reg (currentRev st)) st = (st', some sk.rev_id) :=
    applySteps_fail k _ st st' sk hsk hpre hfail
  have h2 := prefixRun_applied _ st st' hpre
  have h3 : applySteps ((pendingSteps reg (currentRev st)).take (k + 1)) st
      = (st', some sk.rev_id) := by
    apply applySteps_fail k _ st st' sk
    · rw [take_succ_get?]
      exact hsk
    · rw [take_take_succ]
      exact hpre
    · exact hfail
  exact ⟨h1, h2, by rw [upgrade, h1, h3]⟩

/-- The successful first step of the witness scenario. -/
def stepA : Step :=
  { rev_id := "001_a", description := "add A", transform := fun d => Except.ok (aupdate d ("A") ("1")) }

/-- The successful second step of the witness scenario. -/
def stepB : Step :=
  { rev_id := "002_b", description := "add B", transform := fun d => Except.ok (aupdate d ("B") ("2")) }

/-- The step whose transform raises in the witness scenario. -/
def stepBoom : Step :=
  { rev_id := "003_c", description := "boom", transform := fun _ => Except.error () }

/-- The registry of the partial-failure witness scenario. -/
def failReg : List Step :=
  [stepA, stepB, stepBoom]

/-- The engine state after the two successful steps of the witness
scenario. -/
def failMid : EngineState :=
  { doc := [("A", "1"), ("B", "2")], applied := ["001_a", "002_b"] }

/-- Witness for C1: with two succeeding steps and a third raising one,
`upgrade` stops at the third step, names its `rev_id`, and leaves the
document and applied log at the result of the first two steps. -/
theorem claim1_partial_failure_atomicity_witness :
    upgrade failReg { doc := [], applied := [] } = (failMid, some ("003_c")) ∧
    failMid.applied
      = ([] : List String)
        ++ ((pendingSteps failReg (currentRev { doc := [], applied := [] })).take 2).map
            Step.rev_id ∧
    currentRev failMid = some ("002_b") := by
  have h :=
    claim1_partial_failure_atomicity failReg { doc := [], applied := [] } failMid 2 stepBoom
      rfl rfl rfl
  exact ⟨h.1, h.2.1, rfl⟩

/-- C3: idempotence of `upgrade` — any state produced by a successfully
completed `upgrade` run is a fixed point: calling `upgrade` again with
the same registry reports success and leaves the document, the applied
log (hence `current_rev`) unchanged. -/
theorem claim3_upgrade_idempotent (reg : List Step) (st st' : EngineState)
    (h : upgrade reg st = (st', none)) :
    upgrade reg st' = (st', none) := by
  rw [upgrade] at h
  cases hp : pendingSteps reg (currentRev st) with
  | nil =>
    rw [hp] at h
    have hst : st = st' := congrArg Prod.fst h
    subst hst
    rw [upgrade, hp]
    rfl
  | cons p ps =>
    rw [hp] at h
    have happ : st'.applied = st.applied ++ (p :: ps).map Step.rev_id :=
      applySteps_ok_applied (p :: ps) st st' h
    obtain ⟨z, hzlast⟩ : ∃ z, (p :: ps).reverse.head? = some z := by
      cases hrev : (p :: ps).reverse with
      | nil => exact absurd (congrArg List.length hrev) (by simp)
      | cons w rest => exact ⟨w, rfl⟩
    have hzmem : z ∈ p :: ps := last_mem _ _ hzlast
    have hcur' : currentRev st' = some z.rev_id := by
      cases hrev : (p :: ps).reverse with
      | nil => exact absurd (congrArg List.length hrev) (by simp)
      | cons w rest =>
        have hwz : w = z := by
          rw [hrev] at hzlast
          have : some w = some z := hzlast
          injection this
        subst hwz
        have hmr : ((p :: ps).map Step.rev_id).reverse = (w :: rest).map Step.rev_id := by
          rw [← hrev]
          simp
        rw [currentRev, happ, List.reverse_append, hmr]
        rfl
    have hbound : ∀ s ∈ sortedSteps reg, keyLE s.rev_id z.rev_id := by
      intro s hs
      cases hc : currentRev st with
      | none =>
        rw [hc] at hp
        have hsort : sortedSteps reg = p :: ps := hp
        have hpair : (p :: ps).Pairwise stepLE := hsort ▸ sortedSteps_pairwise reg
        exact pairwise_rel_last (fun x => keyLE_refl x.rev_id) (p :: ps) z s hpair hzlast
          (hsort ▸ hs)
      | some c =>
        rw [hc] at hp
        have hp' : (sortedSteps reg).filter (fun s => decide (keyLT c s.rev_id)) = p :: ps := hp
        by_cases hdec : decide (keyLT c s.rev_id) = true
        · have hsf : s ∈ p :: ps := by
            rw [← hp']
            exact List.mem_filter.mpr ⟨hs, hdec⟩
          have hpair : (p :: ps).Pairwise stepLE := by
            rw [← hp']
            exact (sortedSteps_pairwise reg).filter _
          exact pairwise_rel_last (fun x => keyLE_refl x.rev_id) (p :: ps) z s hpair hzlast hsf
        · have hsc : keyLE s.rev_id c :=
            keyLE_of_not_keyLT (fun hk => hdec (decide_eq_true hk))
          have hz2 : z ∈ (sortedSteps reg).filter (fun s => decide (keyLT c s.rev_id)) := by
            rw [hp']
            exact hzmem
          have hcz : keyLT c z.rev_id := of_decide_eq_true (List.mem_filter.mp hz2).2
          exact Or.inl (keyLT_of_keyLE_of_keyLT hsc hcz)
    have hpend' : pendingSteps reg (currentRev st') = [] := by
      rw [hcur']
      show (sortedSteps reg).filter (fun s => decide (keyLT z.rev_id s.rev_id)) = []
      apply filter_eq_nil_of_false
      intro s hs
      exact decide_eq_false (not_keyLT_of_keyLE (hbound s hs))
    rw [upgrade, hpend']
    rfl

/-- The registry of the idempotence witness scenario. -/
def okReg : List Step :=
  [stepA, stepB]

/-- Witness for C3: after a completed run, a second `upgrade` is a no-op
reporting success. -/
theorem claim3_upgrade_idempotent_witness :
    upgrade okReg { doc := [], applied := [] } = (failMid, none) ∧
    upgrade okReg failMid = (failMid, none) := by
  have h1 : upgrade okReg { doc := [], applied := [] } = (failMid, none) := rfl
  exact ⟨h1, claim3_upgrade_idempotent okReg { doc := [], applied := [] } failMid h1⟩

theorem sorted_perm_unique :
    ∀ l₁ l₂ : List Step, List.Perm l₁ l₂ → l₁.Pairwise stepLE → l₂.Pairwise stepLE →
      l₁.Pairwise (fun a b => revKey a.rev_id ≠ revKey b.rev_id) → l₁ = l₂ := by
  intro l₁
  induction l₁ with
  | nil =>
    intro l₂ hperm _ _ _
    have := hperm.length_eq
    simp at this
    exact (List.length_eq_zero.mp this.symm).symm
  | cons a t₁ ih =>
    intro l₂ hperm hs₁ hs₂ hd
    cases l₂ with
    | nil =>
      have := hperm.length_eq
      simp at this
    | cons b t₂ =>
      have hab : a = b := by
        by_cases heq : a = b
        · exact heq
        · have hamem : a ∈ b :: t₂ := hperm.subset (List.mem_cons_self a t₁)
          have hat2 : a ∈ t₂ := by
            cases hamem with
            | head => exact absurd rfl heq
            | tail _ hmem => exact hmem
          have hbmem : b ∈ a :: t₁ := hperm.symm.subset (List.mem_cons_self b t₂)
          have hbt1 : b ∈ t₁ := by
            cases hbmem with
            | head => exact absurd rfl heq
            | tail _ hmem => exact hmem
          have h1 : stepLE a b := (List.pairwise_cons.mp hs₁).1 b hbt1
          have h2 : stepLE b a := (List.pairwise_cons.mp hs₂).1 a hat2
          have hkeys : revKey a.rev_id = revKey b.rev_id := by
            rcases h1 with h1 | e1
            · rcases h2 with h2 | e2
              · exact absurd h2 (pairLT_asymm h1)
              · exact e2.symm
            · exact e1
          exact absurd hkeys ((List.pairwise_cons.mp hd).1 b hbt1)
      subst hab
      have hperm' : List.Perm t₁ t₂ := hperm.cons_inv
      rw [ih t₂ hperm' (List.pairwise_cons.mp hs₁).2 (List.pairwise_cons.mp hs₂).2
        (List.pairwise_cons.mp hd).2]

/-- C4: application ordering — the engine's application order is the
registry sorted by the numeric-prefix-then-text comparator: it is a
permutation of the registered steps, sorted under `stepLE`, a successful
`upgrade` appends exactly the pending `rev_id`s in that order, and when
all keys are distinct the sorted order is the same for every registration
order (any permutation of the registry). -/
theorem claim4_application_order (reg : List Step) :
    List.Perm (sortedSteps reg) reg ∧
    (sortedSteps reg).Pairwise stepLE ∧
    (∀ st st', upgrade reg st = (st', none) →
      st'.applied = st.applied ++ (pendingSteps reg (currentRev st)).map Step.rev_id) ∧
    (reg.Pairwise (fun a b => revKey a.rev_id ≠ revKey b.rev_id) →
      ∀ reg2, List.Perm reg2 reg → sortedSteps reg2 = sortedSteps reg) := by
  refine ⟨sortedSteps_perm reg, sortedSteps_pairwise reg, ?_, ?_⟩
  · intro st st' h
    rw [upgrade] at h
    exact applySteps_ok_applied _ st st' h
  · intro hdist reg2 hperm
    apply sorted_perm_unique
    · exact (sortedSteps_perm reg2).trans (hperm.trans (sortedSteps_perm reg).symm)
    · exact sortedSteps_pairwise reg2
    · exact sortedSteps_pairwise reg
    · have h2 : reg2.Pairwise (fun a b => revKey a.rev_id ≠ revKey b.rev_id) :=
        (hperm.pairwise_iff (fun h e => h e.symm)).mpr hdist
      exact ((sortedSteps_perm reg2).pairwise_iff (fun h e => h e.symm)).mpr h2

/-- Step `001_c` of the ordering witness scenario. -/
def stepC1 : Step :=
  { rev_id := "001_c", description := "add C",
    transform := fun d => Except.ok (aupdate d ("C") ("c")) }

/-- Step `002_b` of the ordering witness scenario. -/
def stepB2 : Step :=
  { rev_id := "002_b", description := "add B",
    transform := fun d => Except.ok (aupdate d ("B") ("b")) }

/-- Step `010_a` of the ordering witness scenario. -/
def stepA10 : Step :=
  { rev_id := "010_a", description := "add A",
    transform := fun d => Except.ok (aupdate d ("A") ("a")) }

/-- The ordering registry in registration order `002_b, 010_a, 001_c`. -/
def orderReg : List Step :=
  [stepB2, stepA10, stepC1]

/-- The same steps registered in a different order. -/
def orderRegAlt : List Step :=
  [stepC1, stepB2, stepA10]

/-- Witness for C4: registering `002_b, 010_a, 001_c` in that order
applies them as `001_c, 002_b, 010_a` (numeric prefix order, so `010`
sorts after `002` despite the textual order), and a permuted
registration order sorts identically. -/
theorem claim4_application_order_witness :
    (sortedSteps orderReg).map Step.rev_id = ["001_c", "002_b", "010_a"] ∧
    upgrade orderReg { doc := [], applied := [] }
      = ({ doc := [("C", "c"), ("B", "b"), ("A", "a")],
           applied := ["001_c", "002_b", "010_a"] }, none) ∧
    ({ doc := [("C", "c"), ("B", "b"), ("A", "a")],
       applied := ["001_c", "002_b", "010_a"] } : EngineState).applied
      = ([] : List String)
        ++ (pendingSteps orderReg (currentRev { doc := [], applied := [] })).map Step.rev_id ∧
    sortedSteps orderRegAlt = sortedSteps orderReg := by
  have h := claim4_application_order orderReg
  refine ⟨rfl, rfl, h.2.2.1 { doc := [], applied := [] } _ rfl, ?_⟩
  apply h.2.2.2
  · refine List.Pairwise.cons ?_ (List.Pairwise.cons ?_ (List.pairwise_singleton _ _))
    · intro s hs
      cases hs with
      | head => decide
      | tail _ hmem =>
        cases hmem with
        | head => decide
        | tail _ hmem2 => cases hmem2
    · intro s hs
      cases hs with
      | head => decide
      | tail _ hmem => cases hmem
  · exact (List.perm_append_singleton stepC1 [stepB2, stepA10]).symm

end Promptmigrate
